import Mathlib

/-!
# gocache: a key/value cache with per-entry expiry

A shallow embedding of `src/cache/cache.go` (the package the tests import), and of the
sweep, `Get` and `Set` of the legacy variant `src/cache.go` (under `Legacy`).

Modelling conventions.

* `time.Time` is an integer count of nanoseconds on one time line and
  `time.Duration` is an `int64` count of nanoseconds.  `Time.Add` is integer
  addition (Go's `Time.Add` does not wrap for instants of the common era),
  while the product of two durations wraps to `int64` as Go's `*` does.
* Every call reads the clock once: the reading is the argument `now` of the
  operation (inside one call all `time.Now()` give that reading).
* `map[string]item` is a partial function `String → Option item`; `delete` and
  assignment are pointwise updates, and the `range` loop of the sweep, which
  deletes only the key it is visiting, is the pointwise filter.
* `interface{}` values are the closed sum `Value`: the nil interface, the three
  dynamic types the typed getters test for, and any other dynamic type.
* The lock makes each operation atomic, so an operation is a function from
  the state before to the state after.  A `go c.cleanExpiredData()` statement
  starts a sweep that runs later on its own: it is an operation of its own in a
  run (`Op.cleanExpiredData`), and the number of such statements a call
  executes is given by the `...Spawned` functions.
-/

namespace GoCache

/-! ## Time and durations -/

/-- Two's-complement reduction of an integer to the `int64` range. -/
def wrap64 (x : Int) : Int := (x + 2 ^ 63) % 2 ^ 64 - 2 ^ 63

/-- The constant `time.Second`, in nanoseconds. -/
def Second : Int := 1000000000

/-- Product of two `time.Duration` values (`int64` arithmetic). -/
def Duration.mul (a b : Int) : Int := wrap64 (a * b)

/-- The method `Time.Add`. -/
def Time.Add (t d : Int) : Int := t + d

/-- The method `Time.Before`. -/
def Time.Before (t u : Int) : Bool := decide (t < u)

/-- The constant `DefaultCacheCleanDelay = 5 * 60`. -/
def DefaultCacheCleanDelay : Int := 5 * 60

/-! ## Data model -/

/-- A value of type `interface{}`. -/
inductive Value where
  | nil
  | bool (b : Bool)
  | int (n : Int)
  | string (s : String)
  | other (tag : Nat)
  deriving DecidableEq

/-- The struct `item`. -/
structure item where
  expiredAt : Int
  value : Value
  deriving DecidableEq

/-- The struct `Cache` (without its lock). -/
structure Cache where
  cache : String → Option item
  cacheCleanDelay : Int
  lastCleanAt : Int

/-! ## Operations -/

/-- The function `NewCache`, called at clock reading `now`. -/
def NewCache (now : Int) : Cache :=
  { cacheCleanDelay := Duration.mul DefaultCacheCleanDelay Second
    cache := fun _ => none
    lastCleanAt := now }

/-- The method `SetCacheCleanDelay`. -/
def Cache.SetCacheCleanDelay (c : Cache) (delay : Int) : Cache :=
  { c with cacheCleanDelay := Duration.mul delay Second }

/-- The method `item.isExpired`. -/
def item.isExpired (it : item) (now : Int) : Bool :=
  Time.Before it.expiredAt now

/-- The method `Get`: the returned pair. -/
def Cache.Get (c : Cache) (key : String) (now : Int) : Value × Bool :=
  match c.cache key with
  | none => (Value.nil, false)
  | some cachedItem =>
    if cachedItem.isExpired now then (Value.nil, false)
    else (cachedItem.value, true)

/-- The number of `go c.cleanExpiredData()` statements a call of `Get` executes. -/
def Cache.GetSpawned (c : Cache) (key : String) (now : Int) : Nat :=
  match c.cache key with
  | none => 0
  | some cachedItem =>
    if cachedItem.isExpired now then 0
    else 1

/-- The type assertion `value.(bool)`, with its `ok` result. -/
def Value.assertBool : Value → Bool × Bool
  | Value.bool b => (b, true)
  | _ => (false, false)

/-- The type assertion `value.(int)`, with its `ok` result. -/
def Value.assertInt : Value → Int × Bool
  | Value.int n => (n, true)
  | _ => (0, false)

/-- The type assertion `value.(string)`, with its `ok` result. -/
def Value.assertString : Value → String × Bool
  | Value.string s => (s, true)
  | _ => ("", false)

/-- The method `GetBool`. -/
def Cache.GetBool (c : Cache) (key : String) (now : Int) : Bool × Bool :=
  let (value, ok) := c.Get key now
  if !ok then (false, false)
  else
    let (intValue, ok) := value.assertBool
    if !ok then (false, false)
    else (intValue, true)

/-- The method `GetInt`. -/
def Cache.GetInt (c : Cache) (key : String) (now : Int) : Int × Bool :=
  let (value, ok) := c.Get key now
  if !ok then (0, false)
  else
    let (intValue, ok) := value.assertInt
    if !ok then (0, false)
    else (intValue, true)

/-- The method `GetString`. -/
def Cache.GetString (c : Cache) (key : String) (now : Int) : String × Bool :=
  let (value, ok) := c.Get key now
  if !ok then ("", false)
  else
    let (intValue, ok) := value.assertString
    if !ok then ("", false)
    else (intValue, true)

/-- The method `SetWithExpiredAt`: the state when the call returns. -/
def Cache.SetWithExpiredAt (c : Cache) (key : String) (value : Value)
    (expiredAt : Int) : Cache :=
  { c with cache := fun k =>
      if k = key then some { value := value, expiredAt := expiredAt } else c.cache k }

/-- The number of `go c.cleanExpiredData()` statements `SetWithExpiredAt` executes. -/
def Cache.SetWithExpiredAtSpawned (_c : Cache) (_key : String) (_value : Value)
    (_expiredAt : Int) : Nat := 1

/-- The method `Set`, called at clock reading `now`. -/
def Cache.Set (c : Cache) (key : String) (value : Value) (expiration : Int)
    (now : Int) : Cache :=
  c.SetWithExpiredAt key value (Time.Add now (Duration.mul expiration Second))

/-- The method `Delete`: the state when the call returns. -/
def Cache.Delete (c : Cache) (key : String) : Cache :=
  { c with cache := fun k => if k = key then none else c.cache k }

/-- The number of `go c.cleanExpiredData()` statements `Delete` executes. -/
def Cache.DeleteSpawned (_c : Cache) (_key : String) : Nat := 1

/-- The method `RemoveAll`. -/
def Cache.RemoveAll (c : Cache) : Cache :=
  { c with cache := fun _ => none }

/-- The method `IsNeedToClearCache`, called at clock reading `now`. -/
def Cache.IsNeedToClearCache (c : Cache) (now : Int) : Bool :=
  Time.Before (Time.Add c.lastCleanAt (Duration.mul c.cacheCleanDelay Second)) now

/-- The method `cleanExpiredData`, run at clock reading `now`. -/
def Cache.cleanExpiredData (c : Cache) (now : Int) : Cache :=
  if !c.IsNeedToClearCache now then c
  else
    { c with
      cache := fun key =>
        match c.cache key with
        | none => none
        | some cachedItem => if cachedItem.isExpired now then none else some cachedItem
      lastCleanAt := now }

/-- The method `ForceClean`. -/
def Cache.ForceClean (c : Cache) (now : Int) : Cache :=
  c.cleanExpiredData now

/-! ## Runs: finite sequences of operations -/

/-- One operation on a cache.  `cleanExpiredData` is a sweep attempt, started
by a `go` statement of an earlier call. -/
inductive Op where
  | get (key : String)
  | getBool (key : String)
  | getInt (key : String)
  | getString (key : String)
  | set (key : String) (value : Value) (expiration : Int)
  | setWithExpiredAt (key : String) (value : Value) (expiredAt : Int)
  | delete (key : String)
  | removeAll
  | cleanExpiredData
  | forceClean
  | setCacheCleanDelay (delay : Int)

/-- Whether the operation is a `Set` or `SetWithExpiredAt` of `key`. -/
def Op.sets (key : String) : Op → Bool
  | Op.set k _ _ => decide (k = key)
  | Op.setWithExpiredAt k _ _ => decide (k = key)
  | _ => false

/-- Whether the operation is a `Delete` of `key` or a `RemoveAll`. -/
def Op.removes (key : String) : Op → Bool
  | Op.delete k => decide (k = key)
  | Op.removeAll => true
  | _ => false

/-- The state after one operation executed at clock reading `now`. -/
def step (c : Cache) (now : Int) : Op → Cache
  | Op.get _ => c
  | Op.getBool _ => c
  | Op.getInt _ => c
  | Op.getString _ => c
  | Op.set key value expiration => c.Set key value expiration now
  | Op.setWithExpiredAt key value expiredAt => c.SetWithExpiredAt key value expiredAt
  | Op.delete key => c.Delete key
  | Op.removeAll => c.RemoveAll
  | Op.cleanExpiredData => c.cleanExpiredData now
  | Op.forceClean => c.ForceClean now
  | Op.setCacheCleanDelay delay => c.SetCacheCleanDelay delay

/-- The state after a sequence of operations, each with its clock reading. -/
def run (c : Cache) : List (Int × Op) → Cache
  | [] => c
  | (now, op) :: rest => run (step c now op) rest

/-- Whether the clock readings of a run never decrease, starting from reading `t0`. -/
def clockMonotone (t0 : Int) : List (Int × Op) → Bool
  | [] => true
  | (now, _) :: rest => decide (t0 ≤ now) && clockMonotone now rest

/-- The number of `go c.cleanExpiredData()` statements a call of `Set` executes: those of
its one call of `SetWithExpiredAt`. -/
def Cache.SetSpawned (c : Cache) (key : String) (value : Value) (expiration : Int)
    (now : Int) : Nat :=
  c.SetWithExpiredAtSpawned key value (Time.Add now (Duration.mul expiration Second))

/-! ## The legacy variant (`src/cache.go`)

The root package declares the same `Cache` and `item` structs, so its operations act
on the same state type. -/

/-- The method `Time.After`. -/
def Time.After (t u : Int) : Bool := decide (u < t)

/-- The legacy function `NewCache(delay)`, called at clock reading `now`. -/
def Legacy.NewCache (delay : Int) (now : Int) : Cache :=
  { cacheCleanDelay := Duration.mul delay Second
    cache := fun _ => none
    lastCleanAt := now }

/-- The legacy method `Get`: the returned pair. -/
def Legacy.Get (c : Cache) (key : String) (now : Int) : Value × Bool :=
  match c.cache key with
  | none => (Value.nil, false)
  | some cachedItem =>
    if Time.Before cachedItem.expiredAt now then (Value.nil, false)
    else (cachedItem.value, true)

/-- The legacy method `SetWithExpiredAt`: the state when the call returns. -/
def Legacy.SetWithExpiredAt (c : Cache) (key : String) (value : Value)
    (expiredAt : Int) : Cache :=
  { c with cache := fun k =>
      if k = key then some { value := value, expiredAt := expiredAt } else c.cache k }

/-- The legacy method `Set`, called at clock reading `now`. -/
def Legacy.Set (c : Cache) (key : String) (value : Value) (expiration : Int)
    (now : Int) : Cache :=
  Legacy.SetWithExpiredAt c key value (Time.Add now expiration)

/-- The legacy method `cleanExpiredData`, run at clock reading `now`. -/
def Legacy.cleanExpiredData (c : Cache) (now : Int) : Cache :=
  if Time.After (Time.Add c.lastCleanAt c.cacheCleanDelay) now then c
  else
    { c with
      cache := fun key =>
        match c.cache key with
        | none => none
        | some cachedItem =>
          if Time.After cachedItem.expiredAt now then none else some cachedItem }

/-! ## Example states -/

/-- A cache built at reading 0 that holds one entry, `"x" ↦ 42`, expiring at
reading 100. -/
def sample : Cache := (NewCache 0).SetWithExpiredAt "x" (Value.int 42) 100

/-- A cache built at reading 0 with clean delay 0, so that the gate is open at every later
reading; it holds `"old"`, expiring at reading 10, and `"new"`, expiring at reading 100. -/
def sweepable : Cache :=
  ((((NewCache 0).SetCacheCleanDelay 0).SetWithExpiredAt "old" (Value.string "a") 10)
    ).SetWithExpiredAt "new" (Value.bool true) 100

/-- A cache built at reading 0 with the default clean delay, holding the expired entry
`"old"`, which expired at reading 10. -/
def stale : Cache := (NewCache 0).SetWithExpiredAt "old" (Value.string "a") 10

/-- A legacy cache built at reading 0 with clean delay 0 that holds `"x" ↦ 42`, set at
reading 0 with a ttl of 5 seconds. -/
def legacySample : Cache :=
  Legacy.Set (Legacy.NewCache 0 0) "x" (Value.int 42) (5 * Second) 0

/-! ## Arithmetic of `wrap64` -/

theorem wrap64_of_fits (x : Int) (hlo : -2 ^ 63 ≤ x) (hhi : x < 2 ^ 63) : wrap64 x = x := by
  unfold wrap64
  norm_num at hlo hhi ⊢
  omega

theorem wrap64_le_self (x : Int) (hlo : -2 ^ 63 ≤ x) : wrap64 x ≤ x := by
  unfold wrap64
  norm_num at hlo ⊢
  omega

theorem wrap64_lt (x : Int) : wrap64 x < 2 ^ 63 := by
  unfold wrap64
  norm_num
  omega

theorem le_wrap64 (x : Int) : -2 ^ 63 ≤ wrap64 x := by
  unfold wrap64
  norm_num
  omega

/-! ## Runs and the entry of one key -/

theorem step_cache_of_not_sets (c : Cache) (now : Int) (op : Op) (key : String)
    (hop : op.sets key = false) :
    (step c now op).cache key = none ∨ (step c now op).cache key = c.cache key := by
  cases op <;>
    simp only [step, Cache.Set, Cache.SetWithExpiredAt, Cache.Delete, Cache.RemoveAll,
      Cache.ForceClean, Cache.cleanExpiredData, Cache.SetCacheCleanDelay, Op.sets,
      decide_eq_false_iff_not] at hop ⊢
  case set k v e => simp [Ne.symm hop]
  case setWithExpiredAt k v e => simp [Ne.symm hop]
  case delete k => by_cases h : key = k <;> simp [h]
  case cleanExpiredData =>
    split
    · simp
    · cases h : c.cache key with
      | none => simp [h]
      | some it => by_cases hx : it.isExpired now = true <;> simp [h, hx]
  case forceClean =>
    split
    · simp
    · cases h : c.cache key with
      | none => simp [h]
      | some it => by_cases hx : it.isExpired now = true <;> simp [h, hx]
  all_goals simp

theorem run_cache_of_not_sets (key : String) (ops : List (Int × Op)) :
    ∀ c : Cache, (∀ p ∈ ops, p.2.sets key = false) →
      (run c ops).cache key = none ∨ (run c ops).cache key = c.cache key := by
  induction ops with
  | nil => intro c _; exact Or.inr rfl
  | cons p rest ih =>
    intro c h
    obtain ⟨now, op⟩ := p
    have h1 : op.sets key = false := h (now, op) (List.mem_cons_self _ _)
    have h2 : ∀ q ∈ rest, q.2.sets key = false :=
      fun q hq => h q (List.mem_cons_of_mem _ hq)
    rcases ih (step c now op) h2 with hr | hr
    · exact Or.inl hr
    · rcases step_cache_of_not_sets c now op key h1 with hs | hs
      · exact Or.inl (hr.trans hs)
      · exact Or.inr (hr.trans hs)

theorem step_cache_keep (c : Cache) (now : Int) (op : Op) (key : String) (it : item)
    (hsets : op.sets key = false) (hrem : op.removes key = false)
    (hit : c.cache key = some it) (hlive : now ≤ it.expiredAt) :
    (step c now op).cache key = some it := by
  have hx : it.isExpired now = false := by
    simp only [item.isExpired, Time.Before, decide_eq_false_iff_not]
    omega
  cases op <;>
    simp only [step, Cache.Set, Cache.SetWithExpiredAt, Cache.Delete, Cache.RemoveAll,
      Cache.ForceClean, Cache.cleanExpiredData, Cache.SetCacheCleanDelay, Op.sets,
      Op.removes, decide_eq_false_iff_not] at hsets hrem ⊢
  case set k v e => simp [Ne.symm hsets, hit]
  case setWithExpiredAt k v e => simp [Ne.symm hsets, hit]
  case delete k => simp [Ne.symm hrem, hit]
  case removeAll => simp at hrem
  case cleanExpiredData => split <;> simp [hit, hx]
  case forceClean => split <;> simp [hit, hx]
  all_goals exact hit

theorem run_cache_keep (key : String) (it : item) (ops : List (Int × Op)) :
    ∀ c : Cache, c.cache key = some it →
      (∀ p ∈ ops, p.1 ≤ it.expiredAt ∧ p.2.sets key = false ∧ p.2.removes key = false) →
      (run c ops).cache key = some it := by
  induction ops with
  | nil => intro c hit _; exact hit
  | cons p rest ih =>
    intro c hit h
    obtain ⟨now, op⟩ := p
    obtain ⟨h1, h2, h3⟩ := h (now, op) (List.mem_cons_self _ _)
    exact ih (step c now op) (step_cache_keep c now op key it h2 h3 hit h1)
      (fun q hq => h q (List.mem_cons_of_mem _ hq))

theorem Get_of_none (c : Cache) (key : String) (now : Int) (h : c.cache key = none) :
    c.Get key now = (Value.nil, false) := by
  simp [Cache.Get, h]

theorem Get_of_expired (c : Cache) (key : String) (now : Int) (it : item)
    (h : c.cache key = some it) (hx : it.expiredAt < now) :
    c.Get key now = (Value.nil, false) := by
  simp [Cache.Get, h, item.isExpired, Time.Before, hx]

theorem Get_of_live (c : Cache) (key : String) (now : Int) (it : item)
    (h : c.cache key = some it) (hx : now ≤ it.expiredAt) :
    c.Get key now = (it.value, true) := by
  simp [Cache.Get, h, item.isExpired, Time.Before, not_lt.mpr hx]

theorem Set_cache_self (c : Cache) (key : String) (value : Value) (expiration now : Int) :
    (c.Set key value expiration now).cache key =
      some { value := value, expiredAt := now + wrap64 (expiration * Second) } := by
  simp [Cache.Set, Cache.SetWithExpiredAt, Time.Add, Duration.mul]

theorem cleanExpiredData_of_gate_closed (c : Cache) (now : Int)
    (h : c.IsNeedToClearCache now = false) : c.cleanExpiredData now = c := by
  simp [Cache.cleanExpiredData, h]

theorem IsNeedToClearCache_iff (c : Cache) (now : Int) :
    c.IsNeedToClearCache now = true ↔
      c.lastCleanAt + wrap64 (c.cacheCleanDelay * Second) < now := by
  simp [Cache.IsNeedToClearCache, Time.Before, Time.Add, Duration.mul]

theorem Set_then_Get_iff (c : Cache) (key : String) (value : Value) (ttl t : Int) :
    (c.Set key value ttl t).Get key t = (value, true) ↔ 0 ≤ wrap64 (ttl * Second) := by
  constructor
  · intro h
    by_contra hneg
    have hx := Get_of_expired _ key t _ (Set_cache_self c key value ttl t)
      (by show t + wrap64 (ttl * Second) < t; omega)
    rw [hx] at h
    simp at h
  · intro h
    exact Get_of_live _ key t _ (Set_cache_self c key value ttl t)
      (by show t ≤ t + wrap64 (ttl * Second); omega)

theorem cleanExpiredData_cache_of_gate_open (c : Cache) (now : Int) (key : String)
    (h : c.IsNeedToClearCache now = true) :
    (c.cleanExpiredData now).cache key =
      match c.cache key with
      | none => none
      | some cachedItem => if cachedItem.isExpired now then none else some cachedItem := by
  simp [Cache.cleanExpiredData, h]

theorem cleanExpiredData_lastCleanAt_of_gate_open (c : Cache) (now : Int)
    (h : c.IsNeedToClearCache now = true) : (c.cleanExpiredData now).lastCleanAt = now := by
  simp [Cache.cleanExpiredData, h]

theorem cleanExpiredData_cacheCleanDelay (c : Cache) (now : Int) :
    (c.cleanExpiredData now).cacheCleanDelay = c.cacheCleanDelay := by
  unfold Cache.cleanExpiredData
  split <;> rfl

theorem isExpired_iff (it : item) (now : Int) : it.isExpired now = true ↔ it.expiredAt < now := by
  simp [item.isExpired, Time.Before]

theorem cleanExpiredData_keeps_live (c : Cache) (now : Int) (key : String) (it : item)
    (h : c.cache key = some it) (hlive : ¬ it.expiredAt < now) :
    (c.cleanExpiredData now).cache key = some it := by
  have hx : ¬ it.isExpired now = true := fun hx => hlive ((isExpired_iff it now).mp hx)
  cases hg : c.IsNeedToClearCache now with
  | false => rw [cleanExpiredData_of_gate_closed c now hg]; exact h
  | true => rw [cleanExpiredData_cache_of_gate_open c now key hg, h]; simp [hx]

theorem step_lastCleanAt_bounds (c : Cache) (now : Int) (op : Op)
    (h : c.lastCleanAt ≤ now) :
    c.lastCleanAt ≤ (step c now op).lastCleanAt ∧ (step c now op).lastCleanAt ≤ now := by
  have hsweep : c.lastCleanAt ≤ (c.cleanExpiredData now).lastCleanAt ∧
      (c.cleanExpiredData now).lastCleanAt ≤ now := by
    cases hg : c.IsNeedToClearCache now with
    | false => rw [cleanExpiredData_of_gate_closed c now hg]; exact ⟨le_refl _, h⟩
    | true => rw [cleanExpiredData_lastCleanAt_of_gate_open c now hg]; exact ⟨h, le_refl _⟩
  cases op
  case cleanExpiredData => exact hsweep
  case forceClean => exact hsweep
  all_goals exact ⟨le_refl _, h⟩

theorem run_append_one (ops : List (Int × Op)) (now : Int) (op : Op) :
    ∀ c : Cache, run c (ops ++ [(now, op)]) = step (run c ops) now op := by
  induction ops with
  | nil => intro c; rfl
  | cons p rest ih =>
    intro c
    obtain ⟨n1, o1⟩ := p
    exact ih (step c n1 o1)

theorem run_step_lastCleanAt (now : Int) (op : Op) (ops : List (Int × Op)) :
    ∀ (c : Cache) (t0 : Int), c.lastCleanAt ≤ t0 →
      clockMonotone t0 (ops ++ [(now, op)]) = true →
      (run c ops).lastCleanAt ≤ (step (run c ops) now op).lastCleanAt := by
  induction ops with
  | nil =>
    intro c t0 h hclock
    simp only [List.nil_append, clockMonotone, Bool.and_true, decide_eq_true_eq] at hclock
    exact (step_lastCleanAt_bounds c now op (le_trans h hclock)).1
  | cons p rest ih =>
    intro c t0 h hclock
    obtain ⟨n1, o1⟩ := p
    simp only [List.cons_append, clockMonotone, Bool.and_eq_true, decide_eq_true_eq] at hclock
    exact ih (step c n1 o1) n1 (step_lastCleanAt_bounds c n1 o1 (le_trans h hclock.1)).2
      hclock.2

theorem GetSpawned_eq (c : Cache) (key : String) (now : Int) :
    c.GetSpawned key now = if (c.Get key now).2 = true then 1 else 0 := by
  unfold Cache.GetSpawned Cache.Get
  cases c.cache key with
  | none => rfl
  | some it => by_cases hx : it.isExpired now = true <;> simp [hx]

theorem cleanExpiredData_Get (c : Cache) (now t : Int) (key : String) (ht : now ≤ t) :
    (c.cleanExpiredData now).Get key t = c.Get key t := by
  cases hg : c.IsNeedToClearCache now with
  | false => rw [cleanExpiredData_of_gate_closed c now hg]
  | true =>
    cases hk : c.cache key with
    | none =>
      have h2 : (c.cleanExpiredData now).cache key = none := by
        rw [cleanExpiredData_cache_of_gate_open c now key hg, hk]
      rw [Get_of_none _ key t h2, Get_of_none c key t hk]
    | some it =>
      by_cases hx : it.expiredAt < now
      · have h2 : (c.cleanExpiredData now).cache key = none := by
          rw [cleanExpiredData_cache_of_gate_open c now key hg, hk]
          simp [(isExpired_iff it now).mpr hx]
        rw [Get_of_none _ key t h2, Get_of_expired c key t it hk (by omega)]
      · have h2 := cleanExpiredData_keeps_live c now key it hk hx
        simp [Cache.Get, h2, hk]

theorem cleanExpiredData_gate_after_sweep (c : Cache) (now : Int) :
    (c.IsNeedToClearCache now = true →
      (c.cleanExpiredData now).lastCleanAt = now ∧
      ∀ later, (c.cleanExpiredData now).IsNeedToClearCache later = true ↔
        now + wrap64 (c.cacheCleanDelay * Second) < later) ∧
    (c.IsNeedToClearCache now = false →
      c.cleanExpiredData now = c ∧
      (c.cleanExpiredData now).lastCleanAt = c.lastCleanAt ∧
      (c.cleanExpiredData now).cache = c.cache) := by
  refine ⟨?_, ?_⟩
  · intro hgate
    refine ⟨cleanExpiredData_lastCleanAt_of_gate_open c now hgate, ?_⟩
    intro later
    rw [IsNeedToClearCache_iff, cleanExpiredData_lastCleanAt_of_gate_open c now hgate,
      cleanExpiredData_cacheCleanDelay]
  · intro hgate
    rw [cleanExpiredData_of_gate_closed c now hgate]
    exact ⟨rfl, rfl, rfl⟩

/-! ## The claims -/

/-- Claim C1. `Get` at clock reading `now` returns `(nil, false)` when the key is absent
from the mapping or its stored `expiredAt` is before `now`, also while the expired entry
is still physically in the mapping; otherwise it returns the stored value with `true`. -/
theorem Get_hit_or_miss (c : Cache) (key : String) (now : Int) :
    ((c.cache key = none ∨ ∃ it, c.cache key = some it ∧ it.expiredAt < now) →
      c.Get key now = (Value.nil, false)) ∧
    (∀ it, c.cache key = some it → ¬ it.expiredAt < now →
      c.Get key now = (it.value, true)) := by
  refine ⟨?_, ?_⟩
  · rintro (h | ⟨it, h, hx⟩)
    · exact Get_of_none c key now h
    · exact Get_of_expired c key now it h hx
  · intro it h hx
    exact Get_of_live c key now it h (not_lt.mp hx)

/-- Claim C1 at `sample`: the entry of `"x"` expires at 100, so it is a hit at reading 100, a
miss at reading 101 although it is still in the mapping, and `"y"` is a miss. -/
theorem Get_hit_or_miss_witness :
    sample.cache "x" = some { value := Value.int 42, expiredAt := 100 } ∧
    sample.Get "x" 101 = (Value.nil, false) ∧
    sample.Get "x" 100 = (Value.int 42, true) ∧
    sample.Get "y" 0 = (Value.nil, false) :=
  ⟨by decide,
   (Get_hit_or_miss sample "x" 101).1
     (Or.inr ⟨{ value := Value.int 42, expiredAt := 100 }, by decide, by decide⟩),
   (Get_hit_or_miss sample "x" 100).2 { value := Value.int 42, expiredAt := 100 }
     (by decide) (by decide),
   (Get_hit_or_miss sample "y" 0).1 (Or.inl (by decide))⟩

/-- Claim C2, at a failing input. `Set("x", 42, 10 * time.Second)` at reading 0 scales the
positive ttl by `time.Second` once more; the product leaves `int64`, the stored `expiredAt`
is before the reading of the call, and the `Get` at the same reading is a miss. -/
theorem Set_then_Get_overflow_miss :
    (0 : Int) < 10 * Second ∧
    Duration.mul (10 * Second) Second = -8446744073709551616 ∧
    ((NewCache 0).Set "x" (Value.int 42) (10 * Second) 0).Get "x" 0 = (Value.nil, false) := by
  decide

/-- Claim C3 as stated fails: after `Set("x", 42, ttl)` at reading 0 with `ttl` the duration
of 2 seconds, the `Get` at 2.1 seconds, later than `t + ttl`, is a hit; and with `ttl` the
duration 2, as the tests pass it, the `Get` at 1 second is a hit. -/
theorem Set_duration_ttl_counterexample :
    ((0 : Int) + 2 * Second < 2100000000 ∧
      ((NewCache 0).Set "x" (Value.int 42) (2 * Second) 0).Get "x" 2100000000 =
        (Value.int 42, true)) ∧
    ((0 : Int) + 2 < 1 * Second ∧
      ((NewCache 0).Set "x" (Value.int 42) 2 0).Get "x" (1 * Second) =
        (Value.int 42, true)) := by
  decide

/-- Claim C3, amended. The ttl counts seconds: when `ttl * 10^9` is not below the `int64`
range (so for every `ttl ≥ 0`), after `Set(key, value, ttl)` at reading `t` and any
operations that do not set the key again, sweeps included, every `Get(key)` at a reading
later than `t` plus `ttl` seconds is a miss. -/
theorem Set_expired_after_ttl_seconds (c : Cache) (key : String) (value : Value)
    (ttl t now : Int) (ops : List (Int × Op))
    (hlow : -2 ^ 63 ≤ ttl * Second)
    (hops : ∀ p ∈ ops, p.2.sets key = false)
    (hlate : t + ttl * Second < now) :
    (run (c.Set key value ttl t) ops).Get key now = (Value.nil, false) := by
  have hle := wrap64_le_self (ttl * Second) hlow
  rcases run_cache_of_not_sets key ops (c.Set key value ttl t) hops with h | h
  · exact Get_of_none _ key now h
  · rw [Set_cache_self] at h
    exact Get_of_expired _ key now _ h (by show t + wrap64 (ttl * Second) < now; omega)

/-- Claim C3, amended, on the scenario of the spec: `Set("x", 42, 2)` at reading 0, a sweep
attempt and a `Get` in between, then the `Get` at 2.1 seconds is a miss. -/
theorem Set_expired_after_ttl_seconds_witness :
    (run ((NewCache 0).Set "x" (Value.int 42) 2 0)
      [(100000000, Op.get "x"), (100000001, Op.cleanExpiredData)]).Get "x" 2100000000 =
      (Value.nil, false) :=
  Set_expired_after_ttl_seconds (NewCache 0) "x" (Value.int 42) 2 0 2100000000
    [(100000000, Op.get "x"), (100000001, Op.cleanExpiredData)]
    (by decide) (by decide) (by decide)

/-- Claim C4. With `0 < n` and `n * 10^9` inside `int64`, `Set(key, value, n)` at reading
`t` keeps the key alive for `n` seconds. After any operations that do not set the key
again, a `Get(key)` later than `t` plus `n` seconds is a miss; when these operations also
neither delete the key nor clear the cache and run no later than the `Get`, a `Get(key)`
earlier than `t` plus `n` seconds returns `(value, true)`. -/
theorem Set_alive_for_n_seconds (c : Cache) (key : String) (value : Value)
    (n t now : Int) (ops : List (Int × Op))
    (hpos : 0 < n) (hfit : n * Second < 2 ^ 63)
    (hops : ∀ p ∈ ops, p.2.sets key = false) :
    (now < t + n * Second → (∀ p ∈ ops, p.1 ≤ now ∧ p.2.removes key = false) →
      (run (c.Set key value n t) ops).Get key now = (value, true)) ∧
    (t + n * Second < now →
      (run (c.Set key value n t) ops).Get key now = (Value.nil, false)) := by
  have hnn : 0 ≤ n * Second := by
    have : (0 : Int) ≤ Second := by decide
    exact Int.mul_nonneg (le_of_lt hpos) this
  have hw : wrap64 (n * Second) = n * Second :=
    wrap64_of_fits (n * Second) (by norm_num; omega) hfit
  refine ⟨?_, ?_⟩
  · intro hearly hquiet
    have hkeep := run_cache_keep key
      { value := value, expiredAt := t + wrap64 (n * Second) } ops
      (c.Set key value n t) (Set_cache_self c key value n t)
      (fun p hp => ⟨by show p.1 ≤ t + wrap64 (n * Second); have := (hquiet p hp).1; omega,
        hops p hp, (hquiet p hp).2⟩)
    exact Get_of_live _ key now _ hkeep (by show now ≤ t + wrap64 (n * Second); omega)
  · intro hlate
    rcases run_cache_of_not_sets key ops (c.Set key value n t) hops with h | h
    · exact Get_of_none _ key now h
    · rw [Set_cache_self] at h
      exact Get_of_expired _ key now _ h (by show t + wrap64 (n * Second) < now; omega)

/-- Claim C4 on the expiration test: `Set(key, value, 2)` at reading 0, then a `Get` and a
sweep attempt; the `Get` at 1.9 seconds is a hit and the `Get` at 2.1 seconds a miss. -/
theorem Set_alive_for_n_seconds_witness :
    (run ((NewCache 0).Set "k" (Value.string "cache me") 2 0)
      [(100000000, Op.get "k"), (100000001, Op.cleanExpiredData)]).Get "k" 1900000000 =
      (Value.string "cache me", true) ∧
    (run ((NewCache 0).Set "k" (Value.string "cache me") 2 0)
      [(100000000, Op.get "k"), (100000001, Op.cleanExpiredData)]).Get "k" 2100000000 =
      (Value.nil, false) :=
  ⟨(Set_alive_for_n_seconds (NewCache 0) "k" (Value.string "cache me") 2 0 1900000000
      [(100000000, Op.get "k"), (100000001, Op.cleanExpiredData)]
      (by decide) (by decide) (by decide)).1 (by decide) (by decide),
   (Set_alive_for_n_seconds (NewCache 0) "k" (Value.string "cache me") 2 0 2100000000
      [(100000000, Op.get "k"), (100000001, Op.cleanExpiredData)]
      (by decide) (by decide) (by decide)).2 (by decide)⟩

/-- Claim C5 as stated fails: `Set("x", 42, 0)` at reading 0 stores an entry that expires
at reading 0, and the `Get` at the same reading is a hit. -/
theorem Set_zero_ttl_counterexample :
    (0 : Int) ≤ 0 ∧
    ((NewCache 0).Set "x" (Value.int 42) 0 0).Get "x" 0 = (Value.int 42, true) := by
  decide

/-- Claim C5, amended. For `ttl ≤ 0` with `ttl * 10^9` inside `int64`, `Set(key, value, ttl)`
at reading `t` stores the entry with `expiredAt` equal to `t` plus `ttl` seconds, which is
not after `t`; the next `Get(key)` is a miss at every reading later than `t`, and at
reading `t` itself when `ttl < 0`; with `ttl = 0` the `Get` at reading `t` is a hit. -/
theorem Set_nonpositive_ttl (c : Cache) (key : String) (value : Value) (ttl t now : Int)
    (httl : ttl ≤ 0) (hlow : -2 ^ 63 ≤ ttl * Second) :
    (c.Set key value ttl t).cache key =
      some { value := value, expiredAt := t + ttl * Second } ∧
    t + ttl * Second ≤ t ∧
    (t < now → (c.Set key value ttl t).Get key now = (Value.nil, false)) ∧
    (ttl < 0 → t ≤ now → (c.Set key value ttl t).Get key now = (Value.nil, false)) ∧
    (ttl = 0 → (c.Set key value ttl t).Get key t = (value, true)) := by
  have hsec : (0 : Int) < Second := by decide
  have hnp : ttl * Second ≤ 0 := Int.mul_nonpos_of_nonpos_of_nonneg httl (le_of_lt hsec)
  have hw : wrap64 (ttl * Second) = ttl * Second :=
    wrap64_of_fits (ttl * Second) hlow (by norm_num; omega)
  have hc := Set_cache_self c key value ttl t
  rw [hw] at hc
  refine ⟨hc, by omega, ?_, ?_, ?_⟩
  · intro hlater
    exact Get_of_expired _ key now _ hc (by show t + ttl * Second < now; omega)
  · intro hneg hnow
    have : ttl * Second < 0 := Int.mul_neg_of_neg_of_pos hneg hsec
    exact Get_of_expired _ key now _ hc (by show t + ttl * Second < now; omega)
  · intro hzero
    exact Get_of_live _ key t _ hc (by show t ≤ t + ttl * Second; subst hzero; simp)

/-- Claim C5, amended, at `Set("x", 42, -1)` and `Set("x", 42, 0)` called at reading 5. -/
theorem Set_nonpositive_ttl_witness :
    ((NewCache 0).Set "x" (Value.int 42) (-1) 5).Get "x" 5 = (Value.nil, false) ∧
    ((NewCache 0).Set "x" (Value.int 42) 0 5).Get "x" 6 = (Value.nil, false) :=
  ⟨(Set_nonpositive_ttl (NewCache 0) "x" (Value.int 42) (-1) 5 5
      (by decide) (by decide)).2.2.2.1 (by decide) (by decide),
   (Set_nonpositive_ttl (NewCache 0) "x" (Value.int 42) 0 5 6
      (by decide) (by decide)).2.2.1 (by decide)⟩

/-- Claim C6. `Delete(key)` followed immediately by `Get(key)` is a miss at every clock
reading, whatever entry the key had before. -/
theorem Delete_then_Get (c : Cache) (key : String) (now : Int) :
    (c.Delete key).Get key now = (Value.nil, false) := by
  simp [Cache.Delete, Cache.Get]

/-- Claim C7. `RemoveAll` replaces the mapping by the empty one and changes nothing else:
every `Get` misses afterwards, `lastCleanAt` and the clean delay are untouched, and
`IsNeedToClearCache` answers as before at every clock reading. -/
theorem RemoveAll_clears_mapping_only (c : Cache) :
    c.RemoveAll = { c with cache := fun _ => none } ∧
    (∀ key now, c.RemoveAll.Get key now = (Value.nil, false)) ∧
    c.RemoveAll.lastCleanAt = c.lastCleanAt ∧
    c.RemoveAll.cacheCleanDelay = c.cacheCleanDelay ∧
    (∀ now, c.RemoveAll.IsNeedToClearCache now = c.IsNeedToClearCache now) := by
  refine ⟨rfl, ?_, rfl, rfl, ?_⟩
  · intro key now
    simp [Cache.RemoveAll, Cache.Get]
  · intro now
    simp [Cache.RemoveAll, Cache.IsNeedToClearCache]

/-- Claim C8. Each typed getter agrees with `Get` up to the type test: `GetInt` returns
`(n, true)` exactly when `Get` returns `(v, true)` with `v` the int `n`, and `(0, false)`
both when `Get` misses and when it hits with a value of another type; `GetBool` and
`GetString` do the same with `(false, false)` and `("", false)`. -/
theorem typed_getters_agree_with_Get (c : Cache) (key : String) (now : Int) :
    ((∀ n, c.GetInt key now = (n, true) ↔ c.Get key now = (Value.int n, true)) ∧
      ((c.Get key now).2 = false → c.GetInt key now = (0, false)) ∧
      (∀ v, c.Get key now = (v, true) → (∀ n, v ≠ Value.int n) →
        c.GetInt key now = (0, false))) ∧
    ((∀ b, c.GetBool key now = (b, true) ↔ c.Get key now = (Value.bool b, true)) ∧
      ((c.Get key now).2 = false → c.GetBool key now = (false, false)) ∧
      (∀ v, c.Get key now = (v, true) → (∀ b, v ≠ Value.bool b) →
        c.GetBool key now = (false, false))) ∧
    ((∀ s, c.GetString key now = (s, true) ↔ c.Get key now = (Value.string s, true)) ∧
      ((c.Get key now).2 = false → c.GetString key now = ("", false)) ∧
      (∀ v, c.Get key now = (v, true) → (∀ s, v ≠ Value.string s) →
        c.GetString key now = ("", false))) := by
  rcases h : c.Get key now with ⟨v, ok⟩
  cases ok <;> cases v <;>
    simp [Cache.GetInt, Cache.GetBool, Cache.GetString, h, Value.assertInt,
      Value.assertBool, Value.assertString]

/-- Claim C8 at `sample`, whose key `"x"` holds the int 42: `GetInt` hits, `GetString` and
`GetBool` miss on the type while `Get` hits, and all miss once the entry has expired. -/
theorem typed_getters_agree_with_Get_witness :
    sample.GetInt "x" 50 = (42, true) ∧
    sample.GetString "x" 50 = ("", false) ∧
    sample.GetBool "x" 50 = (false, false) ∧
    sample.GetInt "x" 101 = (0, false) :=
  ⟨((typed_getters_agree_with_Get sample "x" 50).1.1 42).2 (by decide),
   (typed_getters_agree_with_Get sample "x" 50).2.2.2.2 (Value.int 42) (by decide)
     (fun s h => Value.noConfusion h),
   (typed_getters_agree_with_Get sample "x" 50).2.1.2.2 (Value.int 42) (by decide)
     (fun b h => Value.noConfusion h),
   (typed_getters_agree_with_Get sample "x" 101).1.2.1 (by decide)⟩

/-- Claim C9. On a cache built by `NewCache`, after any finite sequence of operations at
any clock readings in which `key` is never the key of a `Set` or `SetWithExpiredAt`,
`Get(key)` is a miss at every clock reading. -/
theorem Get_of_never_written (t0 : Int) (ops : List (Int × Op)) (key : String) (now : Int)
    (hops : ∀ p ∈ ops, p.2.sets key = false) :
    (run (NewCache t0) ops).Get key now = (Value.nil, false) := by
  rcases run_cache_of_not_sets key ops (NewCache t0) hops with h | h
  · exact Get_of_none _ key now h
  · exact Get_of_none _ key now (h.trans rfl)

/-- Claim C9 on a run that uses every operation and never sets `"k"`. -/
theorem Get_of_never_written_witness :
    (run (NewCache 0)
      [(1, Op.set "a" (Value.int 1) 3), (2, Op.get "k"), (3, Op.getInt "a"),
       (4, Op.getBool "k"), (5, Op.getString "k"), (6, Op.delete "k"),
       (7, Op.setWithExpiredAt "b" (Value.bool true) 9), (8, Op.setCacheCleanDelay (-1)),
       (9, Op.cleanExpiredData), (10, Op.forceClean), (11, Op.removeAll)]).Get "k" 12 =
      (Value.nil, false) :=
  Get_of_never_written 0
    [(1, Op.set "a" (Value.int 1) 3), (2, Op.get "k"), (3, Op.getInt "a"),
     (4, Op.getBool "k"), (5, Op.getString "k"), (6, Op.delete "k"),
     (7, Op.setWithExpiredAt "b" (Value.bool true) 9), (8, Op.setCacheCleanDelay (-1)),
     (9, Op.cleanExpiredData), (10, Op.forceClean), (11, Op.removeAll)] "k" 12
    (by decide)

/-- Claim C10, at failing inputs. `IsNeedToClearCache` scales the stored clean delay, already
in nanoseconds, by `time.Second` once more. On a cache built at reading 0 with the default
delay of 300 seconds the gate is still closed at 301 seconds and the sweep attempt leaves
the state as it is; after `SetCacheCleanDelay(1)` it is still closed at 2 seconds. The
gate opens only after 4852094820647174144 ns and after 10^18 ns. -/
theorem IsNeedToClearCache_closed_after_interval :
    (¬ (301 * Second < (NewCache 0).lastCleanAt + DefaultCacheCleanDelay * Second) ∧
      (NewCache 0).IsNeedToClearCache (301 * Second) = false ∧
      (NewCache 0).cleanExpiredData (301 * Second) = NewCache 0 ∧
      Duration.mul (NewCache 0).cacheCleanDelay Second = 4852094820647174144) ∧
    (¬ (2 * Second < ((NewCache 0).SetCacheCleanDelay 1).lastCleanAt + 1 * Second) ∧
      ((NewCache 0).SetCacheCleanDelay 1).IsNeedToClearCache (2 * Second) = false ∧
      Duration.mul ((NewCache 0).SetCacheCleanDelay 1).cacheCleanDelay Second =
        1000000000000000000) :=
  ⟨⟨by decide, by decide, cleanExpiredData_of_gate_closed _ _ (by decide), by decide⟩,
   by decide, by decide, by decide⟩

/-- Claim C11. When the gate passes at `now`, the sweep leaves the mapping restricted to
the entries not expired at `now`: every entry whose `expiredAt` is before `now` is removed,
every other entry is kept with its value and `expiredAt`, and no key is added. -/
theorem cleanExpiredData_restricts (c : Cache) (now : Int)
    (hgate : c.IsNeedToClearCache now = true) :
    (∀ key it, c.cache key = some it → it.expiredAt < now →
      (c.cleanExpiredData now).cache key = none) ∧
    (∀ key it, c.cache key = some it → ¬ it.expiredAt < now →
      (c.cleanExpiredData now).cache key = some it) ∧
    (∀ key, c.cache key = none → (c.cleanExpiredData now).cache key = none) := by
  refine ⟨?_, ?_, ?_⟩
  · intro key it h hx
    rw [cleanExpiredData_cache_of_gate_open c now key hgate, h]
    simp [(isExpired_iff it now).mpr hx]
  · intro key it h hx
    exact cleanExpiredData_keeps_live c now key it h hx
  · intro key h
    rw [cleanExpiredData_cache_of_gate_open c now key hgate, h]

/-- Claim C11 at `sweepable`, swept at reading 50: `"old"` (expired at 10) is removed,
`"new"` (expiring at 100) is kept as it is, and the absent `"k"` stays absent. -/
theorem cleanExpiredData_restricts_witness :
    (sweepable.cleanExpiredData 50).cache "old" = none ∧
    (sweepable.cleanExpiredData 50).cache "new" =
      some { value := Value.bool true, expiredAt := 100 } ∧
    (sweepable.cleanExpiredData 50).cache "k" = none :=
  ⟨(cleanExpiredData_restricts sweepable 50 (by decide)).1 "old"
      { value := Value.string "a", expiredAt := 10 } (by decide) (by decide),
   (cleanExpiredData_restricts sweepable 50 (by decide)).2.1 "new"
      { value := Value.bool true, expiredAt := 100 } (by decide) (by decide),
   (cleanExpiredData_restricts sweepable 50 (by decide)).2.2 "k" (by decide)⟩

/-- Claim C12 as stated fails: on `stale`, built at reading 0 with the default delay, the
gate is closed at reading 200, and after `ForceClean` at 200 the entry `"old"`, which
expired at reading 10, is still in the mapping. -/
theorem ForceClean_gate_closed_counterexample :
    stale.IsNeedToClearCache 200 = false ∧
    (stale.ForceClean 200).cache "old" = some { value := Value.string "a", expiredAt := 10 } ∧
    (10 : Int) < 200 := by
  decide

/-- Claim C12, amended. `ForceClean` is the gated sweep: every entry not expired at `now`
is still there afterwards; when `IsNeedToClearCache` holds at `now`, no entry whose
`expiredAt` is before `now` remains; when it does not hold, the state is unchanged. -/
theorem ForceClean_is_gated_sweep (c : Cache) (now : Int) :
    (∀ key it, c.cache key = some it → ¬ it.expiredAt < now →
      (c.ForceClean now).cache key = some it) ∧
    (c.IsNeedToClearCache now = true →
      ∀ key it, (c.ForceClean now).cache key = some it → ¬ it.expiredAt < now) ∧
    (c.IsNeedToClearCache now = false → c.ForceClean now = c) := by
  refine ⟨?_, ?_, ?_⟩
  · intro key it h hx
    exact cleanExpiredData_keeps_live c now key it h hx
  · intro hgate key it h hx
    have hc := cleanExpiredData_cache_of_gate_open c now key hgate
    unfold Cache.ForceClean at h
    rw [hc] at h
    cases hk : c.cache key with
    | none => rw [hk] at h; simp at h
    | some it0 =>
      rw [hk] at h
      by_cases hx0 : it0.isExpired now = true
      · simp [hx0] at h
      · have hEQ : it0 = it := by simpa [hx0] using h
        subst hEQ
        exact hx0 ((isExpired_iff it0 now).mpr hx)
  · intro hgate
    exact cleanExpiredData_of_gate_closed c now hgate

/-- Claim C12, amended, at `sweepable` (gate open at reading 50: `"new"` stays and is not
expired) and at `stale` (gate closed at reading 200: nothing changes). -/
theorem ForceClean_is_gated_sweep_witness :
    (sweepable.ForceClean 50).cache "new" =
      some { value := Value.bool true, expiredAt := 100 } ∧
    ¬ ((100 : Int) < 50) ∧
    stale.ForceClean 200 = stale :=
  ⟨(ForceClean_is_gated_sweep sweepable 50).1 "new"
      { value := Value.bool true, expiredAt := 100 } (by decide) (by decide),
   (ForceClean_is_gated_sweep sweepable 50).2.1 (by decide) "new"
      { value := Value.bool true, expiredAt := 100 } (by decide),
   (ForceClean_is_gated_sweep stale 200).2.2 (by decide)⟩

/-- Claim C14. `lastCleanAt` only moves forward: on a cache built by `NewCache` at reading
`t0`, after any run whose clock readings never decrease, the next operation, whichever it
is and whatever clean delay has been configured, at a reading not before the earlier ones,
leaves `lastCleanAt` not earlier than it was. -/
theorem lastCleanAt_moves_forward (t0 : Int) (ops : List (Int × Op)) (now : Int) (op : Op)
    (hclock : clockMonotone t0 (ops ++ [(now, op)]) = true) :
    (run (NewCache t0) ops).lastCleanAt ≤
      (step (run (NewCache t0) ops) now op).lastCleanAt :=
  run_step_lastCleanAt now op ops (NewCache t0) t0 (le_refl _) hclock

/-- Claim C14 on a run with a negative clean delay, under which every sweep passes the
gate: the last sweep moves `lastCleanAt` from 3 to 7. -/
theorem lastCleanAt_moves_forward_witness :
    (run (NewCache 0)
      [(1, Op.setCacheCleanDelay (-1)), (2, Op.set "a" (Value.int 1) 3),
       (3, Op.cleanExpiredData), (3, Op.get "a"), (5, Op.delete "a")]).lastCleanAt ≤
    (step (run (NewCache 0)
      [(1, Op.setCacheCleanDelay (-1)), (2, Op.set "a" (Value.int 1) 3),
       (3, Op.cleanExpiredData), (3, Op.get "a"), (5, Op.delete "a")]) 7
      Op.forceClean).lastCleanAt :=
  lastCleanAt_moves_forward 0
    [(1, Op.setCacheCleanDelay (-1)), (2, Op.set "a" (Value.int 1) 3),
     (3, Op.cleanExpiredData), (3, Op.get "a"), (5, Op.delete "a")] 7 Op.forceClean
    (by decide)

/-- Claim C15, at failing inputs. A sweep that passes the gate does end with
`lastCleanAt = now`, but the gate is not re-armed for the configured interval, because
`IsNeedToClearCache` scales the stored delay by `time.Second` once more. After
`SetCacheCleanDelay(10)` on a cache built at reading 0, the sweep at reading 5 passes the
gate and sets `lastCleanAt = 5`, and the gate is open again at reading 5 itself, 10
seconds before the interval ends. After `SetCacheCleanDelay(1)`, a sweep that passes the
gate at reading `10^18 + 1` leaves the gate closed 2 seconds later, after the interval of
1 second has ended. -/
theorem sweep_does_not_rearm_full_interval :
    (((NewCache 0).SetCacheCleanDelay 10).IsNeedToClearCache 5 = true ∧
      (((NewCache 0).SetCacheCleanDelay 10).cleanExpiredData 5).lastCleanAt = 5 ∧
      (5 : Int) < 5 + 10 * Second ∧
      (((NewCache 0).SetCacheCleanDelay 10).cleanExpiredData 5).IsNeedToClearCache 5 = true ∧
      Duration.mul ((NewCache 0).SetCacheCleanDelay 10).cacheCleanDelay Second =
        -8446744073709551616) ∧
    (((NewCache 0).SetCacheCleanDelay 1).IsNeedToClearCache (10 ^ 18 + 1) = true ∧
      (((NewCache 0).SetCacheCleanDelay 1).cleanExpiredData (10 ^ 18 + 1)).lastCleanAt =
        10 ^ 18 + 1 ∧
      (10 ^ 18 + 1 : Int) + 1 * Second < 10 ^ 18 + 1 + 2 * Second ∧
      (((NewCache 0).SetCacheCleanDelay 1).cleanExpiredData
        (10 ^ 18 + 1)).IsNeedToClearCache (10 ^ 18 + 1 + 2 * Second) = false) := by
  decide

/-- Claim C16. `SetWithExpiredAt(key, value, e)` writes unconditionally: the entry of `key`
is then exactly `(value, e)` whatever was stored before, so `Get(key)` hits with `value`
exactly at the readings not after `e`; every other key keeps its entry, and `lastCleanAt`
and the clean delay are unchanged. -/
theorem SetWithExpiredAt_frame (c : Cache) (key : String) (value : Value) (e : Int) :
    (c.SetWithExpiredAt key value e).cache key = some { value := value, expiredAt := e } ∧
    (∀ now, (c.SetWithExpiredAt key value e).Get key now =
      if e < now then (Value.nil, false) else (value, true)) ∧
    (∀ k, k ≠ key → (c.SetWithExpiredAt key value e).cache k = c.cache k) ∧
    (c.SetWithExpiredAt key value e).lastCleanAt = c.lastCleanAt ∧
    (c.SetWithExpiredAt key value e).cacheCleanDelay = c.cacheCleanDelay := by
  refine ⟨by simp [Cache.SetWithExpiredAt], ?_, ?_, rfl, rfl⟩
  · intro now
    by_cases h : e < now <;>
      simp [Cache.SetWithExpiredAt, Cache.Get, item.isExpired, Time.Before, h]
  · intro k hk
    simp [Cache.SetWithExpiredAt, hk]

/-- Claim C16 at `sample`: re-writing `"x"` with the earlier expiry 20 makes it a miss at
reading 50, re-writing it with the later expiry 500 makes it a hit at reading 200. -/
theorem SetWithExpiredAt_frame_witness :
    (sample.SetWithExpiredAt "x" (Value.int 7) 20).Get "x" 50 = (Value.nil, false) ∧
    (sample.SetWithExpiredAt "x" (Value.int 7) 500).Get "x" 200 = (Value.int 7, true) ∧
    (sample.SetWithExpiredAt "y" (Value.int 7) 20).cache "x" = sample.cache "x" :=
  ⟨((SetWithExpiredAt_frame sample "x" (Value.int 7) 20).2.1 50).trans (by decide),
   ((SetWithExpiredAt_frame sample "x" (Value.int 7) 500).2.1 200).trans (by decide),
   (SetWithExpiredAt_frame sample "y" (Value.int 7) 20).2.2.1 "x" (by decide)⟩

/-- Claim C17. `Delete(key)` removes that key and nothing else: the key is absent
afterwards; when it was absent before, the whole state is left as it was; every other key
keeps its entry, and `lastCleanAt` and the clean delay are unchanged. -/
theorem Delete_frame (c : Cache) (key : String) :
    (c.Delete key).cache key = none ∧
    (c.cache key = none → c.Delete key = c) ∧
    (∀ k, k ≠ key → (c.Delete key).cache k = c.cache k) ∧
    (c.Delete key).lastCleanAt = c.lastCleanAt ∧
    (c.Delete key).cacheCleanDelay = c.cacheCleanDelay := by
  refine ⟨by simp [Cache.Delete], ?_, ?_, rfl, rfl⟩
  · intro h
    have hfun : (fun k => if k = key then none else c.cache k) = c.cache := by
      funext k
      by_cases hk : k = key
      · subst hk; simp [h]
      · simp [hk]
    cases c with
    | mk m d l =>
      simp only [Cache.Delete] at hfun ⊢
      rw [hfun]
  · intro k hk
    simp [Cache.Delete, hk]

/-- Claim C17 at `sample`: deleting the absent `"y"` changes nothing, and deleting `"x"`
leaves `"y"` absent. -/
theorem Delete_frame_witness :
    sample.Delete "y" = sample ∧
    (sample.Delete "x").cache "y" = sample.cache "y" :=
  ⟨(Delete_frame sample "y").2.1 (by decide),
   (Delete_frame sample "x").2.2.1 "y" (by decide)⟩

/-- Claim C18 as stated fails: `Get` of an absent key on a new cache, and `Get` of the
expired `"x"` on `sample` at reading 101, are misses that start no sweep attempt. -/
theorem Get_miss_spawns_no_sweep_counterexample :
    ((NewCache 0).Get "k" 0 = (Value.nil, false) ∧ (NewCache 0).GetSpawned "k" 0 = 0) ∧
    (sample.Get "x" 101 = (Value.nil, false) ∧ sample.GetSpawned "x" 101 = 0) := by
  decide

/-- Claim C18, amended. `Get` starts exactly one sweep attempt when it is a hit and none
when it is a miss, on an absent key or on an expired one; `Set`, `SetWithExpiredAt` and
`Delete` start exactly one on every call. -/
theorem sweep_attempts_per_call (c : Cache) (key : String) (value : Value)
    (ttl e now : Int) :
    ((c.Get key now).2 = true → c.GetSpawned key now = 1) ∧
    ((c.Get key now).2 = false → c.GetSpawned key now = 0) ∧
    (c.cache key = none → c.GetSpawned key now = 0) ∧
    (∀ it, c.cache key = some it → it.expiredAt < now → c.GetSpawned key now = 0) ∧
    c.SetSpawned key value ttl now = 1 ∧
    c.SetWithExpiredAtSpawned key value e = 1 ∧
    c.DeleteSpawned key = 1 := by
  have hs := GetSpawned_eq c key now
  refine ⟨?_, ?_, ?_, ?_, rfl, rfl, rfl⟩
  · intro h; rw [hs]; simp [h]
  · intro h; rw [hs]; simp [h]
  · intro h; rw [hs, Get_of_none c key now h]; simp
  · intro it h hx; rw [hs, Get_of_expired c key now it h hx]; simp

/-- Claim C18, amended, at `sample`: the hit at reading 100 starts one sweep attempt, the
miss on the expired entry at reading 101 starts none. -/
theorem sweep_attempts_per_call_witness :
    sample.GetSpawned "x" 100 = 1 ∧ sample.GetSpawned "x" 101 = 0 :=
  ⟨(sweep_attempts_per_call sample "x" Value.nil 0 0 100).1 (by decide),
   (sweep_attempts_per_call sample "x" Value.nil 0 0 101).2.2.2.1
     { value := Value.int 42, expiredAt := 100 } (by decide) (by decide)⟩

/-- Claim C19. The legacy sweep has the removal condition inverted: whenever its gate
passes at `now` it removes exactly the entries whose `expiredAt` is after `now`, keeps
the others, the expired ones included, and it never updates `lastCleanAt`. So there are a
state, a reading and a key with a legacy `Get` hit before the legacy sweep and a miss
after it, while the sweep of `src/cache/cache.go`, run on the same state with its gate
open, keeps that entry. -/
theorem legacy_sweep_inverted :
    (∀ (c : Cache) (now : Int), c.lastCleanAt + c.cacheCleanDelay ≤ now →
      (∀ key it, c.cache key = some it → now < it.expiredAt →
        (Legacy.cleanExpiredData c now).cache key = none) ∧
      (∀ key it, c.cache key = some it → ¬ now < it.expiredAt →
        (Legacy.cleanExpiredData c now).cache key = some it) ∧
      (∀ key, c.cache key = none → (Legacy.cleanExpiredData c now).cache key = none)) ∧
    (∀ (c : Cache) (now : Int), (Legacy.cleanExpiredData c now).lastCleanAt = c.lastCleanAt) ∧
    (∃ (c : Cache) (now : Int) (key : String) (value : Value),
      c.lastCleanAt + c.cacheCleanDelay ≤ now ∧
      Legacy.Get c key now = (value, true) ∧
      Legacy.Get (Legacy.cleanExpiredData c now) key now = (Value.nil, false) ∧
      c.IsNeedToClearCache now = true ∧
      (c.cleanExpiredData now).cache key = c.cache key ∧
      (c.cleanExpiredData now).Get key now = (value, true)) := by
  refine ⟨?_, ?_, ?_⟩
  · intro c now hgate
    have hg : ¬ now < c.lastCleanAt + c.cacheCleanDelay := by omega
    refine ⟨?_, ?_, ?_⟩
    · intro key it h hx
      simp [Legacy.cleanExpiredData, Time.After, Time.Add, hg, h, hx]
    · intro key it h hx
      simp [Legacy.cleanExpiredData, Time.After, Time.Add, hg, h, hx]
    · intro key h
      simp [Legacy.cleanExpiredData, Time.After, Time.Add, hg, h]
  · intro c now
    unfold Legacy.cleanExpiredData
    split <;> rfl
  · exact ⟨legacySample, 2 * Second, "x", Value.int 42,
      by decide, by decide, by decide, by decide, by decide, by decide⟩

/-- Claim C19 at `legacySample`, whose entry `"x"` expires at 5 seconds, swept at 2
seconds: the legacy sweep removes the live entry and leaves `lastCleanAt` at 0. -/
theorem legacy_sweep_inverted_witness :
    (Legacy.cleanExpiredData legacySample (2 * Second)).cache "x" = none ∧
    (Legacy.cleanExpiredData legacySample (2 * Second)).lastCleanAt = 0 ∧
    (legacySample.cleanExpiredData (2 * Second)).cache "x" =
      some { value := Value.int 42, expiredAt := 5 * Second } :=
  ⟨(legacy_sweep_inverted.1 legacySample (2 * Second) (by decide)).1 "x"
      { value := Value.int 42, expiredAt := 5 * Second } (by decide) (by decide),
   (legacy_sweep_inverted.2.1 legacySample (2 * Second)).trans (by decide),
   by decide⟩

/-- Claim C20. The sweep is invisible to readers: for a sweep attempt or `ForceClean` at
reading `now` and every reading `t` not before `now`, `Get` and each typed getter return
at `t` the same pair on the state after as on the state before; an entry the sweep
removed was already a miss for `Get` at `t`. -/
theorem sweep_invisible_to_readers (c : Cache) (now t : Int) (key : String)
    (ht : now ≤ t) :
    ((c.cleanExpiredData now).Get key t = c.Get key t ∧
      (c.cleanExpiredData now).GetInt key t = c.GetInt key t ∧
      (c.cleanExpiredData now).GetBool key t = c.GetBool key t ∧
      (c.cleanExpiredData now).GetString key t = c.GetString key t) ∧
    ((c.ForceClean now).Get key t = c.Get key t ∧
      (c.ForceClean now).GetInt key t = c.GetInt key t ∧
      (c.ForceClean now).GetBool key t = c.GetBool key t ∧
      (c.ForceClean now).GetString key t = c.GetString key t) ∧
    (∀ it, c.cache key = some it → (c.cleanExpiredData now).cache key = none →
      c.Get key t = (Value.nil, false)) := by
  have hGet := cleanExpiredData_Get c now t key ht
  have hall : (c.cleanExpiredData now).Get key t = c.Get key t ∧
      (c.cleanExpiredData now).GetInt key t = c.GetInt key t ∧
      (c.cleanExpiredData now).GetBool key t = c.GetBool key t ∧
      (c.cleanExpiredData now).GetString key t = c.GetString key t :=
    ⟨hGet, by simp only [Cache.GetInt, hGet], by simp only [Cache.GetBool, hGet],
      by simp only [Cache.GetString, hGet]⟩
  refine ⟨hall, hall, ?_⟩
  intro it h hgone
  by_cases hx : it.expiredAt < now
  · exact Get_of_expired c key t it h (by omega)
  · rw [cleanExpiredData_keeps_live c now key it h hx] at hgone
    simp at hgone

/-- Claim C20 at `sweepable`, swept at reading 50 and read at reading 60: the removed
`"old"` was a miss before and is a miss after, the kept `"new"` is the same hit. -/
theorem sweep_invisible_to_readers_witness :
    (sweepable.cleanExpiredData 50).cache "old" = none ∧
    (sweepable.cleanExpiredData 50).Get "old" 60 = (Value.nil, false) ∧
    (sweepable.ForceClean 50).GetBool "new" 60 = (true, true) :=
  ⟨by decide,
   ((sweep_invisible_to_readers sweepable 50 60 "old" (by decide)).1.1).trans (by decide),
   ((sweep_invisible_to_readers sweepable 50 60 "new" (by decide)).2.1.2.2.1).trans
     (by decide)⟩

end GoCache
